import Mathlib

/-!
Verification of the recurrence-translation core of the
Collaboration-Area-Event-Series repository.

The development shallowly embeds the pure translation logic of three
scripts:

* `scripts/map_zoom_to_event_series_config.py` — the cross-system mapper
  (date-to-pattern derivation, per-meeting mapping, batch loop);
* `scripts/create_recurring_events.py` — the ordinal-weekday matcher and
  the compact-string recurrence-rule builder;
* `scripts/create_zoom_recurring_meetings.py` — the meeting-platform
  recurrence builder (`parse_recurrence_config`).

Dictionaries become structures with `Option` fields, Python exceptions
become `Except Unit` / `Option`, and the relevant pieces of the standard
library (`strptime`, `strftime`, `fromisoformat`, `calendar.monthrange`,
`date.weekday`) are modelled explicitly below.
-/

/-! ## Calendar and formatting helpers (stdlib behaviour used by the scripts) -/

/-- Gregorian leap-year rule, as used by `calendar.monthrange`. -/
def isLeapYear (y : Nat) : Bool :=
  (y % 4 == 0 && y % 100 != 0) || y % 400 == 0

/-- Number of days in a month: the second component of
`calendar.monthrange(year, month)`. -/
def daysInMonth (y m : Nat) : Nat :=
  if m = 2 then (if isLeapYear y then 29 else 28)
  else if m = 4 ∨ m = 6 ∨ m = 9 ∨ m = 11 then 30 else 31

theorem daysInMonth_le_31 (y m : Nat) : daysInMonth y m ≤ 31 := by
  unfold daysInMonth
  split
  · split <;> omega
  · split <;> omega

/-- Sakamoto month offsets for the day-of-week computation. -/
def sakamotoOff (m : Nat) : Nat :=
  [0, 3, 2, 5, 0, 3, 5, 1, 4, 6, 2, 4].getD (m - 1) 0

/-- Day of week of a Gregorian date, 0 = Sunday … 6 = Saturday
(Sakamoto's algorithm). -/
def dayOfWeekSun0 (y m d : Nat) : Nat :=
  let yy := if m < 3 then y - 1 else y
  (yy + yy / 4 - yy / 100 + yy / 400 + sakamotoOff m + d) % 7

/-- Python's `date.weekday()`: 0 = Monday … 6 = Sunday. -/
def pythonWeekday (y m d : Nat) : Nat :=
  (dayOfWeekSun0 y m d + 6) % 7

/-- English weekday names in `date.weekday()` order. -/
def WEEKDAY_NAMES : List String :=
  ["Monday", "Tuesday", "Wednesday", "Thursday", "Friday", "Saturday", "Sunday"]

/-- Python's `date.strftime("%A")`: the full weekday name of the date. -/
def weekdayName (y m d : Nat) : String :=
  WEEKDAY_NAMES.getD (pythonWeekday y m d) "Monday"

/-- Python's `str.lower()` for the ASCII strings these scripts handle,
implemented over the character list so that it evaluates by reduction. -/
def strToLower (s : String) : String := String.mk (s.toList.map Char.toLower)

/-- Numeric value of a decimal digit character. -/
def digitVal (c : Char) : Nat := c.toNat - 48

/-- Decimal digit character for a value below 10. -/
def digitChar (n : Nat) : Char := Char.ofNat (48 + n)

/-- Zero-padded two-digit decimal rendering (`%02d`, for values below 100). -/
def pad2 (n : Nat) : String :=
  if n < 10 then String.mk ['0', digitChar n]
  else String.mk [digitChar (n / 10), digitChar (n % 10)]

/-- Zero-padded four-digit decimal rendering (`%04d`, for values below 10000). -/
def pad4 (n : Nat) : String :=
  String.mk [digitChar (n / 1000 % 10), digitChar (n / 100 % 10),
             digitChar (n / 10 % 10), digitChar (n % 10)]

/-- Parse one or two decimal digits, greedily, returning the value and the
rest of the input.  This is how CPython's `_strptime` consumes the
`%m`, `%d`, `%H`, `%M` and `%S` fields (two digits when available,
otherwise one). -/
def parse2dig : List Char → Option (Nat × List Char)
  | [] => none
  | [c] => if c.isDigit then some (digitVal c, []) else none
  | c :: c2 :: rest =>
    if c.isDigit then
      if c2.isDigit then some (digitVal c * 10 + digitVal c2, rest)
      else some (digitVal c, c2 :: rest)
    else none

/-- Model of `datetime.strptime(s, "%Y-%m-%d").date()`: four year digits,
dash, month, dash, day, with the month in 1..12, the day within the month,
and the year at least 1 (`datetime` rejects year 0).  Returns
`(year, month, day)` or `none` for a `ValueError`. -/
def parseDate (s : String) : Option (Nat × Nat × Nat) :=
  match s.toList with
  | y1 :: y2 :: y3 :: y4 :: rest0 =>
    if y1.isDigit && y2.isDigit && y3.isDigit && y4.isDigit then
      let y := digitVal y1 * 1000 + digitVal y2 * 100 + digitVal y3 * 10 + digitVal y4
      if 1 ≤ y then
        match rest0 with
        | '-' :: rest1 =>
          match parse2dig rest1 with
          | some (mo, rest2) =>
            if 1 ≤ mo ∧ mo ≤ 12 then
              match rest2 with
              | '-' :: rest3 =>
                match parse2dig rest3 with
                | some (d, []) =>
                  if 1 ≤ d ∧ d ≤ daysInMonth y mo then some (y, mo, d) else none
                | _ => none
              | _ => none
            else none
          | none => none
        | _ => none
      else none
    else none
  | _ => none

/-- Model of `datetime.strptime(s, "%H:%M:%S")`: hour 0..23, minute 0..59,
second 0..61 (CPython allows leap seconds), each one or two digits,
separated by colons, nothing trailing. -/
def parseTime (s : String) : Option (Nat × Nat × Nat) :=
  match parse2dig s.toList with
  | some (hh, ':' :: r1) =>
    if hh ≤ 23 then
      match parse2dig r1 with
      | some (mm, ':' :: r2) =>
        if mm ≤ 59 then
          match parse2dig r2 with
          | some (ss, []) => if ss ≤ 61 then some (hh, mm, ss) else none
          | _ => none
        else none
      | _ => none
    else none
  | _ => none

/-- Model of `datetime.fromisoformat` restricted to the zero-padded
`YYYY-MM-DD` form used by the configuration files of this repository
(the resulting datetime is midnight of that date). -/
def fromisoDate (s : String) : Option (Nat × Nat × Nat) :=
  match s.toList with
  | [y1, y2, y3, y4, h1, m1, m2, h2, d1, d2] =>
    if y1.isDigit && y2.isDigit && y3.isDigit && y4.isDigit &&
       h1 == '-' && m1.isDigit && m2.isDigit && h2 == '-' &&
       d1.isDigit && d2.isDigit then
      let y := digitVal y1 * 1000 + digitVal y2 * 100 + digitVal y3 * 10 + digitVal y4
      let mo := digitVal m1 * 10 + digitVal m2
      let d := digitVal d1 * 10 + digitVal d2
      if 1 ≤ y ∧ 1 ≤ mo ∧ mo ≤ 12 ∧ 1 ≤ d ∧ d ≤ daysInMonth y mo then
        some (y, mo, d)
      else none
    else none
  | _ => none

/-! ## `scripts/map_zoom_to_event_series_config.py` -/

/-- The module-level `POSITION_MAP` dictionary: 1..4 and -1 to a position word. -/
def POSITION_MAP : Int → Option String := fun n =>
  if n = 1 then some "first"
  else if n = 2 then some "second"
  else if n = 3 then some "third"
  else if n = 4 then some "fourth"
  else if n = -1 then some "last"
  else none

/-- The module-level `WEEKDAY_MAP` dictionary: 1 = Sunday … 7 = Saturday. -/
def WEEKDAY_MAP : Int → Option String := fun n =>
  if n = 1 then some "Sunday"
  else if n = 2 then some "Monday"
  else if n = 3 then some "Tuesday"
  else if n = 4 then some "Wednesday"
  else if n = 5 then some "Thursday"
  else if n = 6 then some "Friday"
  else if n = 7 then some "Saturday"
  else none

/-- `compute_end_time(start_time, duration_minutes)`: parse the time,
add the duration, and print `%H:%M:%S`.  The dummy `strptime` date is
1900-01-01, so the printed time is the total minutes modulo 24 hours;
the seconds are unchanged because the duration is a whole number of
minutes.  `none` models the `ValueError` raised on a malformed time. -/
def compute_end_time (start_time : String) (duration_minutes : Int) : Option String :=
  (parseTime start_time).map fun t =>
    let tot := (((t.1 * 60 + t.2.1 : Nat) : Int) + duration_minutes)% 1440 |>.toNat
    pad2 (tot / 60) ++ ":" ++ pad2 (tot % 60) ++ ":" ++ pad2 t.2.2

/-- `is_last_weekday_of_month(date)`: `(date.day + 7) > month_days`. -/
def is_last_weekday_of_month (y m d : Nat) : Bool :=
  decide (daysInMonth y m < d + 7)

/-- The date-level body of `recurrence_day_from_start_date`, after
`strptime` has produced the date: weekday name from the date, position
`"last"` when the date is in the final 7-day window of its month, else
the `POSITION_MAP` entry of `((day - 1) // 7) + 1` with default
`"first"`. -/
def recurrenceDayOfDate (y m d : Nat) : String :=
  let wname := weekdayName y m d
  let pos :=
    if is_last_weekday_of_month y m d then "last"
    else (POSITION_MAP (((d - 1) / 7 + 1 : Nat) : Int)).getD "first"
  pos ++ " " ++ wname

/-- `recurrence_day_from_start_date(start_date)`: `strptime` the string
(`none` models the `ValueError` on a malformed date), then derive the
pattern from the date. -/
def recurrence_day_from_start_date (start_date : String) : Option String :=
  (parseDate start_date).map fun dt => recurrenceDayOfDate dt.1 dt.2.1 dt.2.2

/-- A Zoom meeting record as read from the JSON config (absent keys are
`none`). -/
structure Meeting where
  topic : Option String := none
  agenda : Option String := none
  start_date : Option String := none
  end_date : Option String := none
  start_time : Option String := none
  duration : Option Int := none
  timezone : Option String := none
  recurrence_type : Option String := none
  monthly_week : Option Int := none
  monthly_week_day : Option Int := none
  host_email : Option String := none
  deriving DecidableEq

/-- A WordPress event record as produced by the mapper. -/
structure Event where
  title : String
  description : String
  start_date : String
  end_date : String
  start_time : String
  end_time : String
  recurrence_pattern : String
  recurrence_day : String
  venue : String
  organizer : String
  categories : List String
  timezone : String
  deriving DecidableEq

/-- `map_recurrence_day(meeting)`: reject non-monthly recurrence types,
use explicit `monthly_week` / `monthly_week_day` when both are valid map
keys, otherwise derive from `start_date` when present (`Except.error`
models the uncaught `ValueError` of `strptime` on a malformed date),
otherwise report the missing inputs. -/
def map_recurrence_day (m : Meeting) : Except Unit (Option String × Option String) :=
  if strToLower (m.recurrence_type.getD "monthly") ≠ "monthly" then
    .ok (none, some ("unsupported recurrence_type='" ++
      strToLower (m.recurrence_type.getD "monthly") ++ "'"))
  else
    match m.monthly_week.bind POSITION_MAP, m.monthly_week_day.bind WEEKDAY_MAP with
    | some p, some w => .ok (some (p ++ " " ++ w), none)
    | _, _ =>
      match m.start_date with
      | some s =>
        match parseDate s with
        | some dt =>
          .ok (some (recurrenceDayOfDate dt.1 dt.2.1 dt.2.2),
            some "monthly pattern missing monthly_week/monthly_week_day; derived recurrence_day from start_date")
        | none => .error ()
      | none => .ok (none, some "missing monthly_week/monthly_week_day and start_date")

/-- `map_meeting_to_event(meeting, default_timezone)`: derive the
recurrence day, then build the event record.  `Except.error` models an
uncaught exception (malformed `start_date` during derivation or
malformed `start_time` in `compute_end_time`). -/
def map_meeting_to_event (m : Meeting) (default_timezone : String) :
    Except Unit (Option Event × Option String) :=
  match map_recurrence_day m with
  | .error e => .error e
  | .ok (none, w) => .ok (none, w)
  | .ok (some rday, w) =>
    let st := m.start_time.getD "00:00:00"
    let dur := m.duration.getD 60
    match compute_end_time st dur with
    | none => .error ()
    | some et =>
      .ok (some {
        title := m.topic.getD "Untitled Event"
        description := m.agenda.getD ""
        start_date := m.start_date.getD ""
        end_date := m.end_date.getD (m.start_date.getD "")
        start_time := st
        end_time := et
        recurrence_pattern := "MONTHLY"
        recurrence_day := rday
        venue := "Virtual - Zoom"
        organizer := m.host_email.getD ""
        categories := ["Collaboration Area", "Zoom Meeting"]
        timezone := m.timezone.getD default_timezone }, w)

/-- The f-string rendering of an optional warning (`None` prints as the
string `"None"`). -/
def warnStr : Option String → String
  | some s => s
  | none => "None"

/-- The per-meeting loop of `main` (lines 193-205): meetings are numbered
from 1; a skip appends a `Skipped meeting` line, a mapped meeting with a
note appends a `Mapped meeting` line; an uncaught exception aborts the
whole batch (there is no `try` around the loop body). -/
def processGo (tz : String) : Nat → List Meeting → Except Unit (List Event × List String)
  | _, [] => .ok ([], [])
  | i, m :: rest =>
    match map_meeting_to_event m tz with
    | .error _ => .error ()
    | .ok (none, w) =>
      match processGo tz (i + 1) rest with
      | .error _ => .error ()
      | .ok (es, ws) =>
        .ok (es, ("Skipped meeting #" ++ toString i ++ " ('" ++ m.topic.getD "Untitled" ++
          "'): " ++ warnStr w) :: ws)
    | .ok (some e, some w) =>
      match processGo tz (i + 1) rest with
      | .error _ => .error ()
      | .ok (es, ws) =>
        .ok (e :: es, ("Mapped meeting #" ++ toString i ++ " ('" ++ m.topic.getD "Untitled" ++
          "') with note: " ++ w) :: ws)
    | .ok (some e, none) =>
      match processGo tz (i + 1) rest with
      | .error _ => .error ()
      | .ok (es, ws) => .ok (e :: es, ws)

/-- The whole batch loop of `main`, starting at meeting number 1. -/
def processMeetings (tz : String) (ms : List Meeting) :
    Except Unit (List Event × List String) :=
  processGo tz 1 ms

/-! ## Claim C1 -/

/-- C1: for every valid Gregorian date, the date-to-pattern deriver
returns position `"last"` exactly when `day + 7 > days_in_month`;
otherwise it returns the `POSITION_MAP` entry of `((day - 1) // 7) + 1`,
which always lies in 1..4 (so the `"first"` default is never used and
the result is never `"last"`); the weekday component is the date's
day-of-week name; and the string-level function never fails on a string
that parses to a valid date. -/
theorem C1_date_pattern_deriver (y m d : Nat)
    (hm1 : 1 ≤ m) (hm2 : m ≤ 12) (hd1 : 1 ≤ d) (hd2 : d ≤ daysInMonth y m) :
    (daysInMonth y m < d + 7 →
      recurrenceDayOfDate y m d = "last" ++ " " ++ weekdayName y m d)
    ∧ (d + 7 ≤ daysInMonth y m →
      1 ≤ (d - 1) / 7 + 1 ∧ (d - 1) / 7 + 1 ≤ 4 ∧
      ∃ p, POSITION_MAP (((d - 1) / 7 + 1 : Nat) : Int) = some p ∧ p ≠ "last" ∧
        recurrenceDayOfDate y m d = p ++ " " ++ weekdayName y m d)
    ∧ (∀ s, parseDate s = some (y, m, d) →
      recurrence_day_from_start_date s = some (recurrenceDayOfDate y m d)) := by
  refine ⟨?_, ?_, ?_⟩
  · intro h
    simp [recurrenceDayOfDate, is_last_weekday_of_month, h]
  · intro h
    have h31 : daysInMonth y m ≤ 31 := daysInMonth_le_31 y m
    have hd24 : d ≤ 24 := by omega
    have hw : (d - 1) / 7 + 1 = 1 ∨ (d - 1) / 7 + 1 = 2 ∨
        (d - 1) / 7 + 1 = 3 ∨ (d - 1) / 7 + 1 = 4 := by omega
    refine ⟨by omega, by omega, ?_⟩
    have hnl : ¬ (daysInMonth y m < d + 7) := by omega
    rcases hw with hw | hw | hw | hw <;>
      refine ⟨_, by rw [hw]; rfl, by decide, ?_⟩ <;>
      simp [recurrenceDayOfDate, is_last_weekday_of_month, hnl, hw, POSITION_MAP]
  · intro s hs
    unfold recurrence_day_from_start_date
    rw [hs]
    rfl

/-- C1 witness: 2026-03-30 is a valid date in the last 7-day window of a
31-day month, and the deriver classifies it as `last Monday`. -/
theorem C1_witness_last_monday : recurrenceDayOfDate 2026 3 30 = "last Monday" := by
  have h := (C1_date_pattern_deriver 2026 3 30 (by decide) (by decide) (by decide)
    (by decide)).1 (by decide)
  rw [h]
  rfl

/-! ## Claim C2 -/

/-- C2: for a monthly meeting (explicitly monthly or defaulted), when the
explicit `monthly_week` / `monthly_week_day` fields are not both valid
map keys but a parseable `start_date` is present, the mapper produces an
event whose `recurrence_day` is derived from the start date together
with the advisory derivation warning; when both fields are valid map
keys the `recurrence_day` comes from them and no warning is produced. -/
theorem C2_monthly_mapper_derivation (m : Meeting) (tz : String)
    (hrt : strToLower (m.recurrence_type.getD "monthly") = "monthly")
    (hst : (parseTime (m.start_time.getD "00:00:00")).isSome = true) :
    (∀ s y mo d,
      ¬ ((m.monthly_week.bind POSITION_MAP).isSome = true ∧
         (m.monthly_week_day.bind WEEKDAY_MAP).isSome = true) →
      m.start_date = some s → parseDate s = some (y, mo, d) →
      ∃ e, map_meeting_to_event m tz =
          .ok (some e,
            some "monthly pattern missing monthly_week/monthly_week_day; derived recurrence_day from start_date")
        ∧ e.recurrence_day = recurrenceDayOfDate y mo d)
    ∧ (∀ p w, m.monthly_week.bind POSITION_MAP = some p →
        m.monthly_week_day.bind WEEKDAY_MAP = some w →
      ∃ e, map_meeting_to_event m tz = .ok (some e, none)
        ∧ e.recurrence_day = p ++ " " ++ w) := by
  obtain ⟨t, ht⟩ := Option.isSome_iff_exists.mp hst
  have hce : compute_end_time (m.start_time.getD "00:00:00") (m.duration.getD 60)
      = some (pad2 ((((((t.1 * 60 + t.2.1 : Nat) : Int) + m.duration.getD 60)% 1440).toNat) / 60) ++ ":" ++
          pad2 ((((((t.1 * 60 + t.2.1 : Nat) : Int) + m.duration.getD 60)% 1440).toNat) % 60) ++ ":" ++
          pad2 t.2.2) := by
    rw [compute_end_time, ht, Option.map_some']
  constructor
  · intro s y mo d hinv hs hp
    have hmr : map_recurrence_day m =
        .ok (some (recurrenceDayOfDate y mo d),
          some "monthly pattern missing monthly_week/monthly_week_day; derived recurrence_day from start_date") := by
      unfold map_recurrence_day
      rw [hrt]
      rcases hb1 : m.monthly_week.bind POSITION_MAP with _ | p
      · rcases hb2 : m.monthly_week_day.bind WEEKDAY_MAP with _ | w
        · simp [hb1, hb2, hs, hp]
        · simp [hb1, hb2, hs, hp]
      · rcases hb2 : m.monthly_week_day.bind WEEKDAY_MAP with _ | w
        · simp [hb1, hb2, hs, hp]
        · exact absurd ⟨by rw [hb1]; rfl, by rw [hb2]; rfl⟩ hinv
    unfold map_meeting_to_event
    rw [hmr]
    simp only [hce]
    exact ⟨_, rfl, rfl⟩
  · intro p w hb1 hb2
    have hmr : map_recurrence_day m = .ok (some (p ++ " " ++ w), none) := by
      unfold map_recurrence_day
      rw [hrt, hb1, hb2]
      simp
    unfold map_meeting_to_event
    rw [hmr]
    simp only [hce]
    exact ⟨_, rfl, rfl⟩

/-- C2 witness: a monthly meeting with no explicit fields and
`start_date = 2026-03-02` maps to an event with
`recurrence_day = "first Monday"` and the derivation warning. -/
theorem C2_witness_first_monday :
    ∃ e, map_meeting_to_event { start_date := some "2026-03-02" : Meeting } "America/New_York" =
        .ok (some e,
          some "monthly pattern missing monthly_week/monthly_week_day; derived recurrence_day from start_date")
      ∧ e.recurrence_day = "first Monday" := by
  obtain ⟨e, h1, h2⟩ :=
    (C2_monthly_mapper_derivation { start_date := some "2026-03-02" } "America/New_York"
      (by decide) (by decide)).1 "2026-03-02" 2026 3 2 (by decide) rfl (by decide)
  refine ⟨e, h1, ?_⟩
  rw [h2]
  rfl

/-! ## Claim C7 -/

/-- C7 counterexample: a weekly meeting is skipped, but the warning text
wraps the recurrence type in single quotes — it is
`unsupported recurrence_type='weekly'`, not the claimed
`unsupported recurrence_type=weekly`. -/
theorem C7_counterexample_quoted_value :
    map_recurrence_day
        { recurrence_type := some "weekly", topic := some "Weekly Team Meeting" : Meeting }
      = .ok (none, some "unsupported recurrence_type='weekly'")
    ∧ "unsupported recurrence_type='weekly'" ≠ "unsupported recurrence_type=weekly" :=
  ⟨rfl, by decide⟩

/-- C7 amended: a meeting whose `recurrence_type` is present and not
`monthly` (case-insensitively) produces no event and a skip warning of
the form `unsupported recurrence_type='<lowercased value>'` (the value
is single-quoted); in the batch loop the record contributes no event and
exactly one skip line, and processing continues with the rest. -/
theorem C7_amended_skip_warning (m : Meeting) (tz : String) (t : String)
    (ht : m.recurrence_type = some t) (hmon : strToLower t ≠ "monthly") :
    map_meeting_to_event m tz =
      .ok (none, some ("unsupported recurrence_type='" ++ strToLower t ++ "'"))
    ∧ ∀ (i : Nat) (rest : List Meeting) (es : List Event) (ws : List String),
        processGo tz (i + 1) rest = .ok (es, ws) →
        processGo tz i (m :: rest) =
          .ok (es, ("Skipped meeting #" ++ toString i ++ " ('" ++ m.topic.getD "Untitled" ++
            "'): " ++ ("unsupported recurrence_type='" ++ strToLower t ++ "'")) :: ws) := by
  have hmr : map_recurrence_day m =
      .ok (none, some ("unsupported recurrence_type='" ++ strToLower t ++ "'")) := by
    unfold map_recurrence_day
    rw [ht]
    simp [hmon]
  have hmm : map_meeting_to_event m tz =
      .ok (none, some ("unsupported recurrence_type='" ++ strToLower t ++ "'")) := by
    unfold map_meeting_to_event
    rw [hmr]
  refine ⟨hmm, ?_⟩
  intro i rest es ws hr
  unfold processGo
  rw [hmm, hr]
  rfl

/-- C7 witness: a batch holding exactly one weekly meeting produces no
event and one skip line carrying the quoted warning. -/
theorem C7_witness_weekly_skip :
    processMeetings "America/New_York"
      [{ recurrence_type := some "weekly", topic := some "Weekly Team Meeting" : Meeting }]
      = .ok ([], ["Skipped meeting #1 ('Weekly Team Meeting'): unsupported recurrence_type='weekly'"]) := by
  have h := (C7_amended_skip_warning
    { recurrence_type := some "weekly", topic := some "Weekly Team Meeting" }
    "America/New_York" "weekly" rfl (by decide)).2 1 [] [] [] rfl
  unfold processMeetings
  rw [h]
  rfl

/-! ## Claim C8 -/

/-- A meeting whose date-and-time fields parse wherever the mapper reads
them: the `start_time` (or its default) is a valid `%H:%M:%S` string and
the `start_date`, when present, is a valid `%Y-%m-%d` string. -/
def wellFormedMeeting (m : Meeting) : Bool :=
  (parseTime (m.start_time.getD "00:00:00")).isSome &&
  (match m.start_date with
   | some s => (parseDate s).isSome
   | none => true)

/-- The record is skipped: the mapper returns no event for it. -/
def isSkipped (tz : String) (m : Meeting) : Bool :=
  match map_meeting_to_event m tz with
  | .ok (none, _) => true
  | _ => false

/-- The record carries a warning (either a skip reason or a mapped-with-note
warning). -/
def hasWarning (tz : String) (m : Meeting) : Bool :=
  match map_meeting_to_event m tz with
  | .ok (_, some _) => true
  | _ => false

theorem map_recurrence_day_skip_some (m : Meeting) (w : Option String)
    (h : map_recurrence_day m = .ok (none, w)) : w.isSome = true := by
  unfold map_recurrence_day at h
  split at h
  · simp only [Except.ok.injEq, Prod.mk.injEq] at h
    rw [← h.2]
    rfl
  · split at h
    · simp at h
    · split at h
      · split at h
        · simp at h
        · simp at h
      · simp only [Except.ok.injEq, Prod.mk.injEq] at h
        rw [← h.2]
        rfl

theorem map_meeting_ok (m : Meeting) (tz : String) (hwf : wellFormedMeeting m = true) :
    ∃ p, map_meeting_to_event m tz = .ok p := by
  unfold wellFormedMeeting at hwf
  rw [Bool.and_eq_true] at hwf
  obtain ⟨hst, hsd⟩ := hwf
  have hmr : ∃ q, map_recurrence_day m = .ok q := by
    unfold map_recurrence_day
    split
    · exact ⟨_, rfl⟩
    · split
      · exact ⟨_, rfl⟩
      · split
        · rename_i s heq
          rw [heq] at hsd
          obtain ⟨dt, hdt⟩ := Option.isSome_iff_exists.mp hsd
          rw [hdt]
          exact ⟨_, rfl⟩
        · exact ⟨_, rfl⟩
  obtain ⟨⟨ord, w⟩, hq⟩ := hmr
  unfold map_meeting_to_event
  rw [hq]
  cases ord with
  | none => exact ⟨_, rfl⟩
  | some rday =>
    obtain ⟨t, ht⟩ := Option.isSome_iff_exists.mp hst
    have hce : compute_end_time (m.start_time.getD "00:00:00") (m.duration.getD 60)
        = some (pad2 ((((((t.1 * 60 + t.2.1 : Nat) : Int) + m.duration.getD 60)% 1440).toNat) / 60) ++ ":" ++
            pad2 ((((((t.1 * 60 + t.2.1 : Nat) : Int) + m.duration.getD 60)% 1440).toNat) % 60) ++
            ":" ++ pad2 t.2.2) := by
      rw [compute_end_time, ht, Option.map_some']
    simp only [hce]
    exact ⟨_, rfl⟩

theorem map_meeting_skip_some (m : Meeting) (tz : String) (w : Option String)
    (h : map_meeting_to_event m tz = .ok (none, w)) : w.isSome = true := by
  unfold map_meeting_to_event at h
  rcases hmr : map_recurrence_day m with e | ⟨ord, w'⟩ <;> rw [hmr] at h
  · simp at h
  · cases ord with
    | none =>
      simp only [Except.ok.injEq, Prod.mk.injEq] at h
      rw [← h.2]
      exact map_recurrence_day_skip_some m w' hmr
    | some rday =>
      rcases hce : compute_end_time (m.start_time.getD "00:00:00") (m.duration.getD 60)
        with _ | et <;> simp only [hce] at h
      · simp at h
      · simp at h

theorem processGo_spec (tz : String) (ms : List Meeting) :
    ∀ i : Nat, (∀ m ∈ ms, wellFormedMeeting m = true) →
    ∃ es ws, processGo tz i ms = .ok (es, ws)
      ∧ es.length + ms.countP (isSkipped tz) = ms.length
      ∧ ws.length = ms.countP (hasWarning tz) := by
  induction ms with
  | nil => exact fun i _ => ⟨[], [], rfl, by simp, by simp⟩
  | cons m rest ih =>
    intro i h
    obtain ⟨⟨ord, w⟩, hmap⟩ := map_meeting_ok m tz (h m (by simp))
    obtain ⟨es, ws, hgo, hlen, hws⟩ := ih (i + 1) (fun m' hm' => h m' (by simp [hm']))
    cases ord with
    | none =>
      have hwsome := map_meeting_skip_some m tz w hmap
      obtain ⟨wv, rfl⟩ := Option.isSome_iff_exists.mp hwsome
      refine ⟨es, ("Skipped meeting #" ++ toString i ++ " ('" ++ m.topic.getD "Untitled" ++
        "'): " ++ warnStr (some wv)) :: ws, ?_, ?_, ?_⟩
      · unfold processGo
        rw [hmap, hgo]
      · have hsk : isSkipped tz m = true := by
          unfold isSkipped
          rw [hmap]
        rw [List.countP_cons_of_pos (isSkipped tz) rest hsk]
        simp only [List.length_cons]
        omega
      · have hwn : hasWarning tz m = true := by
          unfold hasWarning
          rw [hmap]
        rw [List.countP_cons_of_pos (hasWarning tz) rest hwn]
        simp only [List.length_cons]
        omega
    | some e =>
      have hsk : isSkipped tz m = false := by
        unfold isSkipped
        rw [hmap]
      cases w with
      | some wv =>
        have hwn : hasWarning tz m = true := by
          unfold hasWarning
          rw [hmap]
        refine ⟨e :: es, ("Mapped meeting #" ++ toString i ++ " ('" ++ m.topic.getD "Untitled" ++
          "') with note: " ++ wv) :: ws, ?_, ?_, ?_⟩
        · unfold processGo
          rw [hmap, hgo]
        · rw [List.countP_cons_of_neg (isSkipped tz) rest (by simp [hsk])]
          simp only [List.length_cons]
          omega
        · rw [List.countP_cons_of_pos (hasWarning tz) rest hwn]
          simp only [List.length_cons]
          omega
      | none =>
        have hwn : hasWarning tz m = false := by
          unfold hasWarning
          rw [hmap]
        refine ⟨e :: es, ws, ?_, ?_, ?_⟩
        · unfold processGo
          rw [hmap, hgo]
        · rw [List.countP_cons_of_neg (isSkipped tz) rest (by simp [hsk])]
          simp only [List.length_cons]
          omega
        · rw [List.countP_cons_of_neg (hasWarning tz) rest (by simp [hwn])]
          omega

/-- C8 counterexample: the batch loop has no per-record exception
handling, so a monthly record whose `start_date` does not parse makes
the whole batch abort — the second record never yields one of the three
per-record outcomes and the third record is never processed, so no
summary counts exist for this batch. -/
theorem C8_counterexample_abort :
    processMeetings "America/New_York"
      [{ recurrence_type := some "monthly", monthly_week := some 1, monthly_week_day := some 2,
         topic := some "Good", start_date := some "2026-03-02" : Meeting },
       { start_date := some "not-a-date", topic := some "Bad" : Meeting },
       { recurrence_type := some "weekly", topic := some "Later" : Meeting }]
      = .error () := by
  rfl

/-- C8 amended: provided every record's `start_time` (or its default)
parses and its `start_date`, when present, parses, the batch loop gives
each record exactly one of the three outcomes and never aborts, the
number of mapped events plus the number of skipped records equals the
number of records read, and the warning list has exactly one line per
affected record; without that proviso a malformed record raises an
uncaught error that aborts the whole batch. -/
theorem C8_amended_batch_counts (tz : String) (ms : List Meeting)
    (h : ∀ m ∈ ms, wellFormedMeeting m = true) :
    ∃ es ws, processMeetings tz ms = .ok (es, ws)
      ∧ es.length + ms.countP (isSkipped tz) = ms.length
      ∧ ws.length = ms.countP (hasWarning tz) := by
  unfold processMeetings
  exact processGo_spec tz ms 1 h

/-- C8 witness: a three-record batch (mapped cleanly, skipped, mapped
with a derivation note) satisfies the count identities. -/
theorem C8_witness_batch :
    ∃ es ws,
      processMeetings "America/New_York"
        [{ recurrence_type := some "monthly", monthly_week := some 1, monthly_week_day := some 2,
           topic := some "A" : Meeting },
         { recurrence_type := some "weekly", topic := some "B" : Meeting },
         { topic := some "C", start_date := some "2026-03-02" : Meeting }]
        = .ok (es, ws)
      ∧ es.length +
          [{ recurrence_type := some "monthly", monthly_week := some 1, monthly_week_day := some 2,
             topic := some "A" : Meeting },
           { recurrence_type := some "weekly", topic := some "B" : Meeting },
           { topic := some "C", start_date := some "2026-03-02" : Meeting }].countP
            (isSkipped "America/New_York") = 3
      ∧ ws.length =
          [{ recurrence_type := some "monthly", monthly_week := some 1, monthly_week_day := some 2,
             topic := some "A" : Meeting },
           { recurrence_type := some "weekly", topic := some "B" : Meeting },
           { topic := some "C", start_date := some "2026-03-02" : Meeting }].countP
            (hasWarning "America/New_York") :=
  C8_amended_batch_counts "America/New_York" _ (by decide)

/-! ## Claim C9 -/

theorem digitChar_isDigit (n : Nat) (h : n < 10) : (digitChar n).isDigit = true := by
  interval_cases n <;> decide

theorem digitVal_digitChar (n : Nat) (h : n < 10) : digitVal (digitChar n) = n := by
  interval_cases n <;> decide

theorem toList_append (s t : String) : (s ++ t).toList = s.toList ++ t.toList := rfl

theorem toList_mk (l : List Char) : (String.mk l).toList = l := rfl

theorem parse2dig_pad2 (a : Nat) (h : a < 100) (rest : List Char) :
    parse2dig ((pad2 a).data ++ rest) = some (a, rest) := by
  unfold pad2
  split
  · show parse2dig ('0' :: digitChar a :: rest) = some (a, rest)
    unfold parse2dig
    simp [digitChar_isDigit a (by omega), digitVal_digitChar a (by omega),
      show digitVal '0' = 0 from rfl]
  · show parse2dig (digitChar (a / 10) :: digitChar (a % 10) :: rest) = some (a, rest)
    unfold parse2dig
    simp [digitChar_isDigit (a / 10) (by omega), digitChar_isDigit (a % 10) (by omega),
      digitVal_digitChar (a / 10) (by omega), digitVal_digitChar (a % 10) (by omega)]
    omega

theorem parseTime_fmt (a b c : Nat) (ha : a < 24) (hb : b < 60) (hc : c < 62) :
    parseTime (pad2 a ++ ":" ++ pad2 b ++ ":" ++ pad2 c) = some (a, b, c) := by
  have ha23 : a ≤ 23 := by omega
  have hb59 : b ≤ 59 := by omega
  have hc61 : c ≤ 61 := by omega
  have hcEnd : parse2dig ((pad2 c).data) = some (c, []) := by
    have h := parse2dig_pad2 c (by omega) []
    rwa [List.append_nil] at h
  have hcolon : (":" : String).data = [':'] := rfl
  simp [parseTime, String.toList, hcolon, parse2dig_pad2 a (by omega),
    parse2dig_pad2 b (by omega), hcEnd, ha23, hb59, hc61]

theorem parseTime_bounds (s : String) (h mi sec : Nat)
    (hp : parseTime s = some (h, mi, sec)) : h < 24 ∧ mi < 60 ∧ sec < 62 := by
  unfold parseTime at hp
  split at hp
  · rename_i hh r1 heq1
    split at hp
    · split at hp
      · rename_i mm r2 heq2
        split at hp
        · split at hp
          · rename_i ss heq3
            split at hp
            · simp only [Option.some.injEq, Prod.mk.injEq] at hp
              obtain ⟨h1, h2, h3⟩ := hp
              subst h1; subst h2; subst h3
              refine ⟨by omega, by omega, by omega⟩
            · simp at hp
          · simp at hp
        · simp at hp
      · simp at hp
    · simp at hp
  · simp at hp

/-- C9: `compute_end_time` returns `(start + duration) mod 24h` printed
as `HH:MM:SS` with the seconds unchanged; whenever a meeting of ordinary
length (duration below 24 hours) crosses midnight, the printed end time
is numerically earlier than the start time; and for a meeting without an
explicit series `end_date` the mapped event's `end_date` equals its
`start_date`, so the day rollover is silently lost. -/
theorem C9_end_time_modulo (st : String) (dur : Int) (h mi sec : Nat)
    (hp : parseTime st = some (h, mi, sec)) :
    (∃ et, compute_end_time st dur = some et ∧
      ∃ h2 m2, parseTime et = some (h2, m2, sec) ∧
        ((h2 * 60 + m2 : Nat) : Int) = (((h * 60 + mi : Nat) : Int) + dur)% 1440 ∧
        (0 < dur → dur < 1440 → 1440 ≤ ((h * 60 + mi : Nat) : Int) + dur →
          h2 * 60 + m2 < h * 60 + mi))
    ∧ (∀ (m : Meeting) (tz : String) (e : Event) (w : Option String),
        m.end_date = none → map_meeting_to_event m tz = .ok (some e, w) →
        e.end_date = e.start_date) := by
  constructor
  · obtain ⟨hh24, hm60, hs62⟩ := parseTime_bounds st h mi sec hp
    have hce : compute_end_time st dur
        = some (pad2 (((((h * 60 + mi : Nat) : Int) + dur)% 1440).toNat / 60) ++ ":" ++
            pad2 (((((h * 60 + mi : Nat) : Int) + dur)% 1440).toNat % 60) ++ ":" ++ pad2 sec) := by
      rw [compute_end_time, hp, Option.map_some']
    have h0 : 0 ≤ (((h * 60 + mi : Nat) : Int) + dur)% 1440 :=
      Int.emod_nonneg _ (by norm_num)
    have h1 : (((h * 60 + mi : Nat) : Int) + dur)% 1440 < 1440 :=
      Int.emod_lt_of_pos _ (by norm_num)
    refine ⟨_, hce, _, _,
      parseTime_fmt _ _ _ (by omega) (by omega) hs62, by omega, ?_⟩
    intro hd0 hd1 hcross
    have hlt : (h * 60 + mi : Nat) < 1440 := by omega
    have hemod : (((h * 60 + mi : Nat) : Int) + dur)% 1440
        = ((h * 60 + mi : Nat) : Int) + dur - 1440 := by omega
    omega
  · intro m tz e w hed hmap
    unfold map_meeting_to_event at hmap
    rcases hmr : map_recurrence_day m with er | ⟨ord, w'⟩ <;> rw [hmr] at hmap
    · simp at hmap
    · cases ord with
      | none => simp at hmap
      | some rday =>
        rcases hce : compute_end_time (m.start_time.getD "00:00:00") (m.duration.getD 60)
          with _ | et <;> simp only [hce] at hmap
        · simp at hmap
        · simp only [Except.ok.injEq, Prod.mk.injEq, Option.some.injEq] at hmap
          rw [← hmap.1]
          simp [hed]

/-- C9 witness: a meeting starting at 23:30 with a 60-minute duration
gets end time 00:30:00, numerically earlier than its start time. -/
theorem C9_witness_midnight_cross :
    ∃ et, compute_end_time "23:30:00" 60 = some et ∧
      ∃ h2 m2, parseTime et = some (h2, m2, 0) ∧ h2 * 60 + m2 < 23 * 60 + 30 := by
  obtain ⟨et, hce, h2, m2, hpt, heq, hlt⟩ :=
    (C9_end_time_modulo "23:30:00" 60 23 30 0 (by decide)).1
  exact ⟨et, hce, h2, m2, hpt, hlt (by decide) (by decide) (by decide)⟩

/-! ## `scripts/create_recurring_events.py` -/

/-- Python's regex class for whitespace over ASCII input:
space, tab, newline, carriage return, vertical tab, form feed. -/
def isWsChar (c : Char) : Bool :=
  c == ' ' || c == '\t' || c == '\n' || c == '\r' || c == Char.ofNat 11 || c == Char.ofNat 12

/-- The five position alternatives of the `recurrence_day` regex. -/
def POSITIONS : List String := ["first", "second", "third", "fourth", "last"]

/-- The seven weekday alternatives of the `recurrence_day` regex. -/
def WEEKDAYS_LC : List String :=
  ["monday", "tuesday", "wednesday", "thursday", "friday", "saturday", "sunday"]

/-- Strip an expected run of characters from the front of a list. -/
def chopFront : List Char → List Char → Option (List Char)
  | [], s => some s
  | _ :: _, [] => none
  | p :: ps, c :: cs => if p = c then chopFront ps cs else none

/-- One alternative of the anchored regex
`^(position)\s+(weekday)$` applied to a lowercased input: the position
word, one or more whitespace characters, the weekday word, and then the
end of the string — where, as with Python's `$`, a single trailing
newline is also accepted. -/
def tryMatch (p w : String) (t : List Char) : Bool :=
  match chopFront p.data t with
  | some (c :: rest) =>
    isWsChar c &&
      (decide (rest.dropWhile isWsChar = w.data) ||
       decide (rest.dropWhile isWsChar = w.data ++ ['\n']))
  | _ => false

/-- All 35 position/weekday alternatives of the regex. -/
def comboList : List (String × String) :=
  POSITIONS.bind fun p => WEEKDAYS_LC.map fun w => (p, w)

/-- The `re.match(r'^(first|second|third|fourth|last)\s+(monday|...|sunday)$',
recurrence_day, re.IGNORECASE)` call of `build_recurrence_rules`,
returning the two groups already lowercased (the source lowercases the
matched groups, and over ASCII the lowercased match of a case-insensitive
pattern is the pattern word itself). -/
def matchOrdinalWeekday (s : String) : Option (String × String) :=
  comboList.find? fun pw => tryMatch pw.1 pw.2 (strToLower s).data

/-- An event record as read by `build_recurrence_rules`. -/
structure EventData where
  recurrence_day : Option String := none
  end_date : Option String := none
  deriving DecidableEq

/-- One rule object of the compact schema.  The JSON keys `on` and `end`
are spelled `on_field` and `end_field` here because both words are
reserved by the Lean environment; `none` models the `end` key being
absent from the dict. -/
structure TECRule where
  type : String
  on_field : String
  end_type : String
  end_field : Option String
  deriving DecidableEq

/-- The `{'rules': [rule]}` payload returned by `build_recurrence_rules`. -/
structure RecRules where
  rules : List TECRule
  deriving DecidableEq

/-- `build_recurrence_rules(event_data)`: match the `recurrence_day`
(default `"first Monday"`) against the ordinal-weekday regex (`none`
models the `ValueError` for an invalid format), then emit the
`every-month` rule; a truthy `end_date` gives `end_type 'On'` plus the
`end` key, otherwise `end_type 'never'` and no `end` key. -/
def build_recurrence_rules (e : EventData) : Option RecRules :=
  match matchOrdinalWeekday (e.recurrence_day.getD "first Monday") with
  | none => none
  | some (pos, day) =>
    let on_value := pos ++ " " ++ day
    if (e.end_date.getD "") = "" then
      some { rules := [{ type := "every-month", on_field := on_value,
                         end_type := "never", end_field := none }] }
    else
      some { rules := [{ type := "every-month", on_field := on_value,
                         end_type := "On", end_field := some (e.end_date.getD "") }] }

/-- The claim's normalisation of the input: surrounding whitespace
trimmed and each internal whitespace run collapsed to one space
(spec-side definition, used to state the claim). -/
def collapseAux : Bool → List Char → List Char
  | _, [] => []
  | lastWs, c :: rest =>
    if isWsChar c then
      if lastWs then collapseAux true rest else ' ' :: collapseAux true rest
    else c :: collapseAux false rest

/-- Trim surrounding whitespace and collapse internal whitespace runs to
a single space (spec-side definition). -/
def specNormalizeWs (s : String) : String :=
  String.mk (collapseAux false (((s.data.dropWhile isWsChar).reverse.dropWhile isWsChar).reverse))

/-- The grammar the parser actually accepts, stated in the spec's terms:
a position word, then one or more whitespace characters, then a weekday
word, case-insensitively, with nothing around them except an optional
single trailing newline. -/
def GrammarMatch (s : String) : Prop :=
  ∃ p w, p ∈ POSITIONS ∧ w ∈ WEEKDAYS_LC ∧
    ∃ ws : List Char, ws ≠ [] ∧ (∀ c ∈ ws, isWsChar c = true) ∧
      ((strToLower s).data = p.data ++ ws ++ w.data ∨
       (strToLower s).data = p.data ++ ws ++ w.data ++ ['\n'])

theorem chopFront_eq_some (p : List Char) :
    ∀ s r, chopFront p s = some r ↔ s = p ++ r := by
  induction p with
  | nil =>
    intro s r
    simp [chopFront]
  | cons c cs ih =>
    intro s r
    cases s with
    | nil => simp [chopFront]
    | cons d ds =>
      by_cases hcd : c = d
      · subst hcd
        simp [chopFront, ih]
      · have hdc : ¬ d = c := fun hx => hcd hx.symm
        simp [chopFront, hcd, hdc]

theorem dropWhile_append_all {p : Char → Bool} (l1 l2 : List Char)
    (h : ∀ c ∈ l1, p c = true) :
    (l1 ++ l2).dropWhile p = l2.dropWhile p := by
  induction l1 with
  | nil => simp
  | cons c cs ih =>
    simp only [List.cons_append, List.dropWhile_cons, h c (by simp), if_true]
    exact ih fun x hx => h x (by simp [hx])

theorem mem_takeWhile_ws {p : Char → Bool} :
    ∀ (l : List Char) c, c ∈ l.takeWhile p → p c = true := by
  intro l
  induction l with
  | nil => simp
  | cons a as ih =>
    intro c hc
    rw [List.takeWhile_cons] at hc
    by_cases hpa : p a = true
    · rw [if_pos hpa] at hc
      rcases List.mem_cons.mp hc with rfl | hc
      · exact hpa
      · exact ih c hc
    · rw [if_neg hpa] at hc
      simp at hc

theorem mem_comboList (p w : String) :
    (p, w) ∈ comboList ↔ p ∈ POSITIONS ∧ w ∈ WEEKDAYS_LC := by
  simp only [comboList, List.mem_bind, List.mem_map, Prod.mk.injEq]
  constructor
  · rintro ⟨a, ha, b, hb, rfl, rfl⟩
    exact ⟨ha, hb⟩
  · rintro ⟨hp, hw⟩
    exact ⟨p, hp, w, hw, rfl, rfl⟩

theorem weekday_head_not_ws (w : String) (hw : w ∈ WEEKDAYS_LC) :
    ∃ c cs, w.data = c :: cs ∧ isWsChar c = false := by
  fin_cases hw <;> exact ⟨_, _, rfl, by decide⟩

theorem matchOrdinal_iff (s : String) :
    (matchOrdinalWeekday s).isSome = true ↔ GrammarMatch s := by
  constructor
  · intro h
    obtain ⟨⟨p, w⟩, hfind⟩ := Option.isSome_iff_exists.mp h
    have hmem := (mem_comboList p w).mp (List.mem_of_find?_eq_some hfind)
    have hpred := List.find?_some hfind
    unfold tryMatch at hpred
    rcases hc : chopFront p.data (strToLower s).data with _ | r <;> rw [hc] at hpred
    · simp at hpred
    · cases r with
      | nil => simp at hpred
      | cons c rest =>
        simp only [Bool.and_eq_true, Bool.or_eq_true, decide_eq_true_eq] at hpred
        obtain ⟨hcws, hrest⟩ := hpred
        have hdecomp := (chopFront_eq_some p.data _ _).mp hc
        have hsplit : rest.takeWhile isWsChar ++ rest.dropWhile isWsChar = rest :=
          List.takeWhile_append_dropWhile isWsChar rest
        refine ⟨p, w, hmem.1, hmem.2, c :: rest.takeWhile isWsChar, by simp, ?_, ?_⟩
        · intro x hx
          rcases List.mem_cons.mp hx with rfl | hx
          · exact hcws
          · exact mem_takeWhile_ws _ x hx
        · rcases hrest with h1 | h1
          · left
            have hr : rest.takeWhile isWsChar ++ w.data = rest := by
              rw [← h1]
              exact hsplit
            rw [hdecomp]
            simp only [List.append_assoc, List.cons_append]
            rw [hr]
          · right
            have hr : rest.takeWhile isWsChar ++ (w.data ++ ['\n']) = rest := by
              rw [← h1]
              exact hsplit
            rw [hdecomp]
            simp only [List.append_assoc, List.cons_append]
            rw [hr]
  · rintro ⟨p, w, hp, hw, ws, hne, hws, heq⟩
    have htm : tryMatch p w (strToLower s).data = true := by
      unfold tryMatch
      obtain ⟨wc, wcs, hwd, hwc⟩ := weekday_head_not_ws w hw
      cases ws with
      | nil => exact absurd rfl hne
      | cons c ws2 =>
        have hws2 : ∀ x ∈ ws2, isWsChar x = true := fun x hx => hws x (by simp [hx])
        have hdw : ∀ tail, (ws2 ++ (w.data ++ tail)).dropWhile isWsChar = w.data ++ tail := by
          intro tail
          rw [dropWhile_append_all ws2 (w.data ++ tail) hws2, hwd]
          rw [List.cons_append, List.dropWhile_cons, hwc]
          simp
        rcases heq with h1 | h1
        · have hchop : chopFront p.data (strToLower s).data = some (c :: (ws2 ++ (w.data ++ []))) := by
            rw [chopFront_eq_some, h1]
            simp
          rw [hchop]
          simp only [Bool.and_eq_true, Bool.or_eq_true, decide_eq_true_eq]
          refine ⟨hws c (by simp), Or.inl ?_⟩
          rw [hdw []]
          simp
        · have hchop : chopFront p.data (strToLower s).data = some (c :: (ws2 ++ (w.data ++ ['\n']))) := by
            rw [chopFront_eq_some, h1]
            simp
          rw [hchop]
          simp only [Bool.and_eq_true, Bool.or_eq_true, decide_eq_true_eq]
          exact ⟨hws c (by simp), Or.inr (hdw ['\n'])⟩
    have hex : ∃ x, x ∈ comboList ∧ tryMatch x.1 x.2 (strToLower s).data = true :=
      ⟨(p, w), (mem_comboList p w).mpr ⟨hp, hw⟩, htm⟩
    unfold matchOrdinalWeekday
    simp only [List.find?_isSome]
    exact hex

/-! ## Claim C3 -/

/-- C3 counterexample: the regex is anchored, so surrounding whitespace
is NOT trimmed — `"first monday "` (trailing space) is rejected by the
parser with an invalid-format error, although its normalised form
`"first monday"` matches the grammar, so the claimed "succeeds exactly
when the trimmed and collapsed string matches" biconditional fails. -/
theorem C3_counterexample_trailing_space :
    build_recurrence_rules { recurrence_day := some "first monday ", end_date := none } = none
    ∧ specNormalizeWs "first monday " = "first monday"
    ∧ (matchOrdinalWeekday (specNormalizeWs "first monday ")).isSome = true := by
  exact ⟨rfl, rfl, rfl⟩

/-- C3 amended: the parser succeeds exactly when the input itself (not a
trimmed version) case-insensitively consists of a position word, one or
more whitespace characters, and a weekday word, with nothing else except
an optional single trailing newline admitted by the `$` anchor;
`build_recurrence_rules` raises the invalid-format error exactly when
that match fails; `"FIRST monday"` succeeds while `"firstmonday"` and
`"zeroth Monday"` fail. -/
theorem C3_amended_grammar :
    (∀ s : String, (matchOrdinalWeekday s).isSome = true ↔ GrammarMatch s)
    ∧ (∀ e : EventData, build_recurrence_rules e = none ↔
        matchOrdinalWeekday (e.recurrence_day.getD "first Monday") = none)
    ∧ (matchOrdinalWeekday "FIRST monday").isSome = true
    ∧ matchOrdinalWeekday "firstmonday" = none
    ∧ matchOrdinalWeekday "zeroth Monday" = none := by
  refine ⟨matchOrdinal_iff, ?_, rfl, rfl, rfl⟩
  intro e
  constructor
  · intro hcon
    rcases hmm2 : matchOrdinalWeekday (e.recurrence_day.getD "first Monday") with _ | ⟨pos, day⟩
    · rfl
    · exfalso
      unfold build_recurrence_rules at hcon
      rw [hmm2] at hcon
      have h2 : (if e.end_date.getD "" = "" then
          some { rules := [{ type := "every-month", on_field := pos ++ " " ++ day,
                             end_type := "never", end_field := none }] }
        else
          some { rules := [{ type := "every-month", on_field := pos ++ " " ++ day,
                             end_type := "On", end_field := some (e.end_date.getD "") }] }
          : Option RecRules) = none := hcon
      split at h2 <;> simp at h2
  · intro hnone
    unfold build_recurrence_rules
    rw [hnone]

/-- C3 witness: the amended grammar accepts `"third   Wednesday"` (one
run of several internal spaces, no surrounding whitespace). -/
theorem C3_witness_grammar : GrammarMatch "third   Wednesday" :=
  (C3_amended_grammar.1 "third   Wednesday").mp rfl

/-! ## Claim C6 -/

/-- C6: every rule emitted by the compact-string builder has type
`every-month`, its `on` value is the lowercased
`<position> <weekday>` string, and it always carries `end_type`: `On`
together with the `end` date when a non-empty `end_date` is supplied,
and `never` with no `end` key when the `end_date` is absent or empty. -/
theorem C6_compact_rule_end_type (e : EventData) (r : RecRules)
    (h : build_recurrence_rules e = some r) :
    ∃ rule, r.rules = [rule] ∧ rule.type = "every-month"
      ∧ (∃ p w, matchOrdinalWeekday (e.recurrence_day.getD "first Monday") = some (p, w) ∧
          rule.on_field = p ++ " " ++ w)
      ∧ (∀ s, e.end_date = some s → s ≠ "" → rule.end_type = "On" ∧ rule.end_field = some s)
      ∧ ((e.end_date = none ∨ e.end_date = some "") →
          rule.end_type = "never" ∧ rule.end_field = none) := by
  unfold build_recurrence_rules at h
  rcases hm : matchOrdinalWeekday (e.recurrence_day.getD "first Monday")
    with _ | ⟨pos, day⟩ <;> rw [hm] at h
  · simp at h
  · have h2 : (if e.end_date.getD "" = "" then
        some { rules := [{ type := "every-month", on_field := pos ++ " " ++ day,
                           end_type := "never", end_field := none }] }
      else
        some { rules := [{ type := "every-month", on_field := pos ++ " " ++ day,
                           end_type := "On", end_field := some (e.end_date.getD "") }] }
        : Option RecRules) = some r := h
    by_cases hend : e.end_date.getD "" = ""
    · rw [if_pos hend] at h2
      simp only [Option.some.injEq] at h2
      subst h2
      refine ⟨_, rfl, rfl, ⟨pos, day, rfl, rfl⟩, ?_, fun _ => ⟨rfl, rfl⟩⟩
      intro s hs hne
      rw [hs] at hend
      simp at hend
      exact absurd hend hne
    · rw [if_neg hend] at h2
      simp only [Option.some.injEq] at h2
      subst h2
      refine ⟨_, rfl, rfl, ⟨pos, day, rfl, rfl⟩, ?_, ?_⟩
      · intro s hs hne
        refine ⟨rfl, ?_⟩
        rw [hs]
        rfl
      · intro hcase
        exfalso
        rcases hcase with h0 | h0 <;> rw [h0] at hend <;> simp at hend

/-- C6 witness: an event with `recurrence_day "Last Friday"` and no end
date produces the single never-ending `every-month` rule on
`last friday`. -/
theorem C6_witness_never :
    ∃ rule,
      ({ rules := [{ type := "every-month", on_field := "last friday",
                     end_type := "never", end_field := none }] } : RecRules).rules = [rule]
      ∧ rule.type = "every-month"
      ∧ (∃ p w, matchOrdinalWeekday
            (({ recurrence_day := some "Last Friday" } : EventData).recurrence_day.getD "first Monday")
            = some (p, w) ∧ rule.on_field = p ++ " " ++ w)
      ∧ (∀ s, ({ recurrence_day := some "Last Friday" } : EventData).end_date = some s →
          s ≠ "" → rule.end_type = "On" ∧ rule.end_field = some s)
      ∧ ((({ recurrence_day := some "Last Friday" } : EventData).end_date = none ∨
          ({ recurrence_day := some "Last Friday" } : EventData).end_date = some "") →
          rule.end_type = "never" ∧ rule.end_field = none) :=
  C6_compact_rule_end_type { recurrence_day := some "Last Friday" } _ rfl

/-! ## `scripts/create_zoom_recurring_meetings.py` -/

/-- `end_date.strftime("%Y-%m-%dT%H:%M:%SZ")` for a date parsed by
`fromisoformat` (midnight). -/
def fmtZ (dt : Nat × Nat × Nat) : String :=
  pad4 dt.1 ++ "-" ++ pad2 dt.2.1 ++ "-" ++ pad2 dt.2.2 ++ "T00:00:00Z"

/-- A meeting configuration record as read from the Zoom JSON config
(absent keys are `none`; `start_date` is required by `validate_config`). -/
structure ZoomConfig where
  recurrence_type : Option String := none
  repeat_interval : Option Int := none
  weekly_days : Option String := none
  monthly_day : Option Int := none
  monthly_week : Option Int := none
  monthly_week_day : Option Int := none
  start_date : String := ""
  end_date : Option String := none
  occurrences : Option Int := none
  deriving DecidableEq

/-- The Zoom API recurrence object built by `parse_recurrence_config`
(`none` models an absent key). -/
structure ZoomRecurrence where
  type : Nat
  repeat_interval : Int
  weekly_days : Option String := none
  monthly_day : Option Int := none
  monthly_week : Option Int := none
  monthly_week_day : Option Int := none
  end_date_time : Option String := none
  end_times : Option Int := none
  deriving DecidableEq

/-- The recurrence-pattern part of `parse_recurrence_config` (lines
158-196): the payload starts at type 1 (daily) and is overridden per
`recurrence_type` (default `"weekly"`); an unrecognised type matches no
branch and leaves type 1 with no pattern fields.  The result tuple is
`(type, weekly_days, monthly_day, monthly_week, monthly_week_day)`;
`Except.error` models the `ValueError` of `fromisoformat` on a
malformed `start_date` in the two default branches that read it. -/
def patternFields (c : ZoomConfig) :
    Except Unit (Nat × Option String × Option Int × Option Int × Option Int) :=
  if strToLower (c.recurrence_type.getD "weekly") = "daily" then
    .ok (1, none, none, none, none)
  else if strToLower (c.recurrence_type.getD "weekly") = "weekly" then
    match c.weekly_days with
    | some wd => .ok (2, some wd, none, none, none)
    | none =>
      match fromisoDate c.start_date with
      | some dt =>
        let pw := pythonWeekday dt.1 dt.2.1 dt.2.2
        let zw := if pw < 6 then pw + 2 else 1
        .ok (2, some (toString zw), none, none, none)
      | none => .error ()
  else if strToLower (c.recurrence_type.getD "weekly") = "monthly" then
    match c.monthly_week, c.monthly_week_day with
    | some mw, some mwd => .ok (3, none, none, some mw, some mwd)
    | _, _ =>
      match c.monthly_day with
      | some md => .ok (3, none, some md, none, none)
      | none =>
        match fromisoDate c.start_date with
        | some dt => .ok (3, none, some ((dt.2.2 : Nat) : Int), none, none)
        | none => .error ()
  else .ok (1, none, none, none, none)

/-- The end-condition part of `parse_recurrence_config` (lines 197-203):
an `end_date` wins and is formatted as `%Y-%m-%dT%H:%M:%SZ`
(`Except.error` models the `ValueError` on a malformed date), otherwise
`occurrences` becomes `end_times`, otherwise neither key is set. -/
def endFields (c : ZoomConfig) : Except Unit (Option String × Option Int) :=
  match c.end_date with
  | some s =>
    match fromisoDate s with
    | some dt => .ok (some (fmtZ dt), none)
    | none => .error ()
  | none =>
    match c.occurrences with
    | some n => .ok (none, some n)
    | none => .ok (none, none)

/-- `parse_recurrence_config(meeting_config)`: the recurrence dict with
`repeat_interval` (default 1), the pattern fields, and the end fields. -/
def parse_recurrence_config (c : ZoomConfig) : Except Unit ZoomRecurrence :=
  match patternFields c, endFields c with
  | .ok (t, wd, md, mw, mwd), .ok (edt, et) =>
    .ok { type := t, repeat_interval := c.repeat_interval.getD 1, weekly_days := wd,
          monthly_day := md, monthly_week := mw, monthly_week_day := mwd,
          end_date_time := edt, end_times := et }
  | _, _ => .error ()

theorem parse_ok_inv (c : ZoomConfig) (r : ZoomRecurrence)
    (h : parse_recurrence_config c = .ok r) :
    ∃ t wd md mw mwd edt et,
      patternFields c = .ok (t, wd, md, mw, mwd) ∧ endFields c = .ok (edt, et) ∧
      r = { type := t, repeat_interval := c.repeat_interval.getD 1, weekly_days := wd,
            monthly_day := md, monthly_week := mw, monthly_week_day := mwd,
            end_date_time := edt, end_times := et } := by
  unfold parse_recurrence_config at h
  rcases hp : patternFields c with e | ⟨t, wd, md, mw, mwd⟩ <;>
    rcases he : endFields c with e2 | ⟨edt, et⟩ <;> rw [hp, he] at h
  · simp at h
  · simp at h
  · simp at h
  · refine ⟨t, wd, md, mw, mwd, edt, et, rfl, rfl, ?_⟩
    simp only [Except.ok.injEq] at h
    exact h.symm

theorem patternFields_monthly (c : ZoomConfig)
    (hrt : strToLower (c.recurrence_type.getD "weekly") = "monthly") :
    patternFields c =
      (match c.monthly_week, c.monthly_week_day with
       | some mw, some mwd => .ok (3, none, none, some mw, some mwd)
       | _, _ =>
         match c.monthly_day with
         | some md => .ok (3, none, some md, none, none)
         | none =>
           match fromisoDate c.start_date with
           | some dt => .ok (3, none, some ((dt.2.2 : Nat) : Int), none, none)
           | none => .error ()) := by
  unfold patternFields
  rw [hrt, if_neg (by decide), if_neg (by decide), if_pos rfl]

/-! ## Claim C4 -/

/-- C4: the end-condition resolution gives an explicit `end_date`
precedence over `occurrences`: with an `end_date` present the payload
carries `end_date_time` (the parsed date formatted) and never
`end_times`, regardless of `occurrences`; with only `occurrences` it
carries `end_times`; with neither it carries neither key. -/
theorem C4_end_condition_precedence (c : ZoomConfig) (r : ZoomRecurrence)
    (h : parse_recurrence_config c = .ok r) :
    (∀ s, c.end_date = some s →
      ∃ dt, fromisoDate s = some dt ∧ r.end_date_time = some (fmtZ dt) ∧ r.end_times = none)
    ∧ (c.end_date = none →
      (∀ n, c.occurrences = some n → r.end_times = some n ∧ r.end_date_time = none)
      ∧ (c.occurrences = none → r.end_times = none ∧ r.end_date_time = none)) := by
  obtain ⟨t, wd, md, mw, mwd, edt, et, hp, he, hr⟩ := parse_ok_inv c r h
  subst hr
  constructor
  · intro s hs
    unfold endFields at he
    rw [hs] at he
    have he2 : (match fromisoDate s with
        | some dt => Except.ok (some (fmtZ dt), none)
        | none => Except.error () : Except Unit (Option String × Option Int))
        = Except.ok (edt, et) := he
    rcases hf : fromisoDate s with _ | dt <;> rw [hf] at he2
    · simp at he2
    · simp only [Except.ok.injEq, Prod.mk.injEq] at he2
      exact ⟨dt, rfl, he2.1.symm, he2.2.symm⟩
  · intro hn
    unfold endFields at he
    rw [hn] at he
    have he2 : (match c.occurrences with
        | some n => Except.ok (none, some n)
        | none => Except.ok (none, none) : Except Unit (Option String × Option Int))
        = Except.ok (edt, et) := he
    constructor
    · intro n hocc
      rw [hocc] at he2
      simp only [Except.ok.injEq, Prod.mk.injEq] at he2
      exact ⟨he2.2.symm, he2.1.symm⟩
    · intro hocc
      rw [hocc] at he2
      simp only [Except.ok.injEq, Prod.mk.injEq] at he2
      exact ⟨he2.2.symm, he2.1.symm⟩

/-- C4 witness: a config with both `end_date = 2026-12-31` and
`occurrences = 10` resolves to the fixed-date form with no
occurrence count. -/
theorem C4_witness_both_fields :
    ∃ dt, fromisoDate "2026-12-31" = some dt ∧
      ({ type := 3, repeat_interval := 1, weekly_days := none, monthly_day := some 15,
         monthly_week := none, monthly_week_day := none,
         end_date_time := some "2026-12-31T00:00:00Z", end_times := none }
        : ZoomRecurrence).end_date_time = some (fmtZ dt) ∧
      ({ type := 3, repeat_interval := 1, weekly_days := none, monthly_day := some 15,
         monthly_week := none, monthly_week_day := none,
         end_date_time := some "2026-12-31T00:00:00Z", end_times := none }
        : ZoomRecurrence).end_times = none :=
  (C4_end_condition_precedence
    { recurrence_type := some "monthly", monthly_day := some 15, start_date := "2026-01-15",
      end_date := some "2026-12-31", occurrences := some 10 }
    _ rfl).1 "2026-12-31" rfl

/-! ## Claim C5 -/

/-- C5: for a monthly configuration the emitted payload never carries
both `monthly_day` and the `monthly_week`/`monthly_week_day` group;
with both week fields supplied the week group is emitted and the
day-of-month key stays cleared even if `monthly_day` was also supplied;
with only `monthly_day` supplied that key is emitted; with neither, the
day of the parsed `start_date` is emitted. -/
theorem C5_monthly_mutual_exclusion (c : ZoomConfig) (r : ZoomRecurrence)
    (hrt : strToLower (c.recurrence_type.getD "weekly") = "monthly")
    (h : parse_recurrence_config c = .ok r) :
    (¬ (r.monthly_day.isSome = true ∧
        (r.monthly_week.isSome = true ∨ r.monthly_week_day.isSome = true)))
    ∧ (c.monthly_week.isSome = true → c.monthly_week_day.isSome = true →
        r.monthly_week = c.monthly_week ∧ r.monthly_week_day = c.monthly_week_day ∧
        r.monthly_day = none)
    ∧ (¬ (c.monthly_week.isSome = true ∧ c.monthly_week_day.isSome = true) →
        ∀ n, c.monthly_day = some n →
        r.monthly_day = some n ∧ r.monthly_week = none ∧ r.monthly_week_day = none)
    ∧ (¬ (c.monthly_week.isSome = true ∧ c.monthly_week_day.isSome = true) →
        c.monthly_day = none →
        ∃ dt, fromisoDate c.start_date = some dt ∧
          r.monthly_day = some ((dt.2.2 : Nat) : Int) ∧
          r.monthly_week = none ∧ r.monthly_week_day = none) := by
  obtain ⟨t, wd, md, mw, mwd, edt, et, hp, he, hr⟩ := parse_ok_inv c r h
  subst hr
  rw [patternFields_monthly c hrt] at hp
  rcases hw1 : c.monthly_week with _ | mw1 <;> rcases hw2 : c.monthly_week_day with _ | mw2 <;>
    rw [hw1, hw2] at hp
  · rcases hmd : c.monthly_day with _ | mdv <;> rw [hmd] at hp
    · rcases hf : fromisoDate c.start_date with _ | dt <;> rw [hf] at hp
      · simp at hp
      · simp only [Except.ok.injEq, Prod.mk.injEq] at hp
        obtain ⟨h1, h2, h3, h4, h5⟩ := hp
        subst h1; subst h2; subst h3; subst h4; subst h5
        exact ⟨by simp, by simp, fun _ n hn => by simp at hn,
          fun _ _ => ⟨dt, rfl, rfl, rfl, rfl⟩⟩
    · simp only [Except.ok.injEq, Prod.mk.injEq] at hp
      obtain ⟨h1, h2, h3, h4, h5⟩ := hp
      subst h1; subst h2; subst h3; subst h4; subst h5
      refine ⟨by simp, by simp, fun _ n hn => ?_, fun _ hmd2 => by simp at hmd2⟩
      simp only [Option.some.injEq] at hn
      subst hn
      exact ⟨rfl, rfl, rfl⟩
  · rcases hmd : c.monthly_day with _ | mdv <;> rw [hmd] at hp
    · rcases hf : fromisoDate c.start_date with _ | dt <;> rw [hf] at hp
      · simp at hp
      · simp only [Except.ok.injEq, Prod.mk.injEq] at hp
        obtain ⟨h1, h2, h3, h4, h5⟩ := hp
        subst h1; subst h2; subst h3; subst h4; subst h5
        exact ⟨by simp, by simp, fun _ n hn => by simp at hn,
          fun _ _ => ⟨dt, rfl, rfl, rfl, rfl⟩⟩
    · simp only [Except.ok.injEq, Prod.mk.injEq] at hp
      obtain ⟨h1, h2, h3, h4, h5⟩ := hp
      subst h1; subst h2; subst h3; subst h4; subst h5
      refine ⟨by simp, by simp, fun _ n hn => ?_, fun _ hmd2 => by simp at hmd2⟩
      simp only [Option.some.injEq] at hn
      subst hn
      exact ⟨rfl, rfl, rfl⟩
  · rcases hmd : c.monthly_day with _ | mdv <;> rw [hmd] at hp
    · rcases hf : fromisoDate c.start_date with _ | dt <;> rw [hf] at hp
      · simp at hp
      · simp only [Except.ok.injEq, Prod.mk.injEq] at hp
        obtain ⟨h1, h2, h3, h4, h5⟩ := hp
        subst h1; subst h2; subst h3; subst h4; subst h5
        exact ⟨by simp, by simp, fun _ n hn => by simp at hn,
          fun _ _ => ⟨dt, rfl, rfl, rfl, rfl⟩⟩
    · simp only [Except.ok.injEq, Prod.mk.injEq] at hp
      obtain ⟨h1, h2, h3, h4, h5⟩ := hp
      subst h1; subst h2; subst h3; subst h4; subst h5
      refine ⟨by simp, by simp, fun _ n hn => ?_, fun _ hmd2 => by simp at hmd2⟩
      simp only [Option.some.injEq] at hn
      subst hn
      exact ⟨rfl, rfl, rfl⟩
  · simp only [Except.ok.injEq, Prod.mk.injEq] at hp
    obtain ⟨h1, h2, h3, h4, h5⟩ := hp
    subst h1; subst h2; subst h3; subst h4; subst h5
    exact ⟨by simp, fun _ _ => ⟨rfl, rfl, rfl⟩,
      fun hx _ _ => absurd ⟨rfl, rfl⟩ hx,
      fun hx _ => absurd ⟨rfl, rfl⟩ hx⟩

/-- C5 witness: supplying `monthly_day = 10` together with
`monthly_week = 2` and `monthly_week_day = 3` yields the week group and
a cleared day-of-month key. -/
theorem C5_witness_both_supplied :
    ({ type := 3, repeat_interval := 1, weekly_days := none, monthly_day := none,
       monthly_week := some 2, monthly_week_day := some 3,
       end_date_time := none, end_times := none } : ZoomRecurrence).monthly_week =
        ({ recurrence_type := some "monthly", monthly_day := some 10, monthly_week := some 2,
           monthly_week_day := some 3, start_date := "2026-01-10" } : ZoomConfig).monthly_week
    ∧ ({ type := 3, repeat_interval := 1, weekly_days := none, monthly_day := none,
         monthly_week := some 2, monthly_week_day := some 3,
         end_date_time := none, end_times := none } : ZoomRecurrence).monthly_week_day =
        ({ recurrence_type := some "monthly", monthly_day := some 10, monthly_week := some 2,
           monthly_week_day := some 3, start_date := "2026-01-10" } : ZoomConfig).monthly_week_day
    ∧ ({ type := 3, repeat_interval := 1, weekly_days := none, monthly_day := none,
         monthly_week := some 2, monthly_week_day := some 3,
         end_date_time := none, end_times := none } : ZoomRecurrence).monthly_day = none :=
  (C5_monthly_mutual_exclusion
    { recurrence_type := some "monthly", monthly_day := some 10, monthly_week := some 2,
      monthly_week_day := some 3, start_date := "2026-01-10" }
    _ rfl rfl).2.1 rfl rfl

/-! ## Claim C10 -/

/-- C10: an absent `recurrence_type` defaults to weekly (payload type
2); an unrecognised `recurrence_type` raises no error and leaves the
payload at its initial type 1 with no pattern fields — when it also has
no end fields, the payload is exactly `type 1` and `repeat_interval`. -/
theorem C10_recurrence_type_fallbacks (c : ZoomConfig) :
    (∀ r, c.recurrence_type = none → parse_recurrence_config c = .ok r → r.type = 2)
    ∧ (∀ t, c.recurrence_type = some t →
        strToLower t ≠ "daily" → strToLower t ≠ "weekly" → strToLower t ≠ "monthly" →
        c.end_date = none → c.occurrences = none →
        parse_recurrence_config c = .ok
          { type := 1, repeat_interval := c.repeat_interval.getD 1, weekly_days := none,
            monthly_day := none, monthly_week := none, monthly_week_day := none,
            end_date_time := none, end_times := none }) := by
  constructor
  · intro r ht h
    obtain ⟨t, wd, md, mw, mwd, edt, et, hp, he, hr⟩ := parse_ok_inv c r h
    subst hr
    have hrt : strToLower (c.recurrence_type.getD "weekly") = "weekly" := by
      rw [ht]
      rfl
    unfold patternFields at hp
    rw [hrt, if_neg (by decide), if_pos rfl] at hp
    rcases hwd : c.weekly_days with _ | wds <;> rw [hwd] at hp
    · rcases hf : fromisoDate c.start_date with _ | dt <;> rw [hf] at hp
      · simp at hp
      · simp only [Except.ok.injEq, Prod.mk.injEq] at hp
        exact hp.1.symm
    · simp only [Except.ok.injEq, Prod.mk.injEq] at hp
      exact hp.1.symm
  · intro t ht hd hw hm hed hocc
    have hp : patternFields c = .ok (1, none, none, none, none) := by
      unfold patternFields
      rw [ht]
      simp only [Option.getD_some]
      rw [if_neg hd, if_neg hw, if_neg hm]
    have he : endFields c = .ok (none, none) := by
      unfold endFields
      rw [hed, hocc]
    unfold parse_recurrence_config
    rw [hp, he]

/-- C10 witness: `recurrence_type = "yearly"` with no end fields is
emitted silently as `{type 1, repeat_interval 1}`. -/
theorem C10_witness_yearly :
    parse_recurrence_config
      ({ recurrence_type := some "yearly", start_date := "2026-01-01" } : ZoomConfig) = .ok
      { type := 1,
        repeat_interval := ({ recurrence_type := some "yearly", start_date := "2026-01-01" }
          : ZoomConfig).repeat_interval.getD 1,
        weekly_days := none, monthly_day := none, monthly_week := none,
        monthly_week_day := none, end_date_time := none, end_times := none } :=
  (C10_recurrence_type_fallbacks
    { recurrence_type := some "yearly", start_date := "2026-01-01" }).2 "yearly" rfl
    (by decide) (by decide) (by decide) rfl rfl
